import Mathlib

/-!
Shallow embedding of the article conversion pipeline in `mdconvert.py`
(`ArticlePreProcessor`, `ArticleTreeProcessor`, `conv_markdown`).

External collaborators (the HTTP client, the filesystem, the MIME guesser,
the generic Markdown parse and the HTML serializer) are modelled as oracle
functions packaged in `Env` / passed as parameters.  Python strings are
Lean `String`s; Python bytes are `List Nat`; Python exceptions that escape
a modelled function are `Option.none`.
-/

/-! ## Python string helpers -/

/-- Python `p in s`-style prefix test: `s.startswith(p)`. -/
def pyStartsWith (s p : String) : Bool := p.toList.isPrefixOf s.toList

/-- Python `s.endswith(p)`. -/
def pyEndsWith (s p : String) : Bool := p.toList.isSuffixOf s.toList

/-- Python `c in s` for a single character `c`. -/
def pyContainsChar (s : String) (c : Char) : Bool := s.toList.contains c

/-- Python `s.lstrip(chars)`: drop leading characters belonging to `chars`. -/
def pyLstrip (s : String) (chars : List Char) : String :=
  String.mk (s.toList.dropWhile (fun c => chars.contains c))

/-- Python `os.path.join(d, u)` for the two-argument form used in the code. -/
def pyJoin (d u : String) : String :=
  if pyStartsWith u "/" then u
  else if d = "" || pyEndsWith d "/" then d ++ u
  else d ++ "/" ++ u

/-- Python `'%s' % x` for an optional string: `None` prints as `"None"`. -/
def pyFormat : Option String → String
  | some s => s
  | none => "None"

/-! ## Attribute dictionaries (`element.attrib`) -/

/-- An element's attribute dictionary, keys unique as in a Python `dict`. -/
abbrev Attrib := List (String × String)

/-- `a[k]` as an optional lookup (Python raises `KeyError` on `none`). -/
def attribGet? (a : Attrib) (k : String) : Option String :=
  match a with
  | [] => none
  | (k', v) :: rest => if k' = k then some v else attribGet? rest k

/-- Python `a.get(k, d)`. -/
def attribGetD (a : Attrib) (k d : String) : String := (attribGet? a k).getD d

/-- Python `a[k] = v`: replace the entry for `k`, or append a new one. -/
def attribSet (a : Attrib) (k v : String) : Attrib :=
  match a with
  | [] => [(k, v)]
  | (k', v') :: rest => if k' = k then (k, v) :: rest else (k', v') :: attribSet rest k v

/-! ## base64 (`base64.b64encode`) -/

/-- The base64 alphabet. -/
def b64chars : List Char :=
  "ABCDEFGHIJKLMNOPQRSTUVWXYZabcdefghijklmnopqrstuvwxyz0123456789+/".toList

/-- The base64 digit for a 6-bit value. -/
def b64char (n : Nat) : Char := b64chars.getD n 'A'

/-- RFC-4648 base64 of a byte list, three bytes to four digits, `=`-padded. -/
def b64encodeList : List Nat → List Char
  | [] => []
  | [a] => [b64char (a / 4), b64char (a % 4 * 16), '=', '=']
  | [a, b] => [b64char (a / 4), b64char (a % 4 * 16 + b / 16), b64char (b % 16 * 4), '=']
  | a :: b :: c :: rest =>
      b64char (a / 4) :: b64char (a % 4 * 16 + b / 16) ::
      b64char (b % 16 * 4 + c / 64) :: b64char (c % 64) :: b64encodeList rest

/-- `base64.b64encode(content).decode('ascii')`. -/
def b64encode (bs : List Nat) : String := String.mk (b64encodeList bs)

/-! ## The document tree (`xml.etree` elements produced by the parser) -/

/-- An element of the parsed document tree: tag, attribute dictionary,
leading text, tail text after the closing tag, and child elements. -/
inductive Element where
  | mk (tag : String) (attrib : Attrib) (text : String) (tail : String)
       (children : List Element)

def Element.tag : Element → String
  | .mk t _ _ _ _ => t

def Element.attrib : Element → Attrib
  | .mk _ a _ _ _ => a

def Element.text : Element → String
  | .mk _ _ x _ _ => x

def Element.tail : Element → String
  | .mk _ _ _ l _ => l

def Element.children : Element → List Element
  | .mk _ _ _ _ cs => cs

/-- Replace an element's child list. -/
def Element.withChildren : Element → List Element → Element
  | .mk t a x l _, cs => .mk t a x l cs

mutual
/-- `Element.itertext()`: the element's text followed by each child's
serialized text and tail, in document order. -/
def itertext : Element → String
  | .mk _ _ text _ children => text ++ itertextList children

def itertextList : List Element → String
  | [] => ""
  | c :: rest => itertext c ++ c.tail ++ itertextList rest
end

/-- `etree.tostring(e, method='text', encoding='unicode')`:
`itertext` plus the element's own tail. -/
def toText (e : Element) : String := itertext e ++ e.tail

/-! ## Warnings (`logging.warning` calls, one constructor per call site) -/

/-- The warnings the pipeline can log, one constructor per source call site. -/
inductive Warning where
  | unableToGet (url : String)
  | unableToGetErr (url : String)
  | unableLocal (path : String)
  | cantMimetype (url : String)
  | cantFindLocal (url : String)
  | noTitle
  | lateTitle (t : String)
  | twoTitles (t : String)
deriving DecidableEq

/-! ## External collaborators -/

/-- Outcome of `requests.get(url)`: a response with status code, body bytes
and optional declared content type; a `MissingSchema` exception; or any
other exception. -/
inductive HttpResult where
  | response (status : Nat) (content : List Nat) (contentType : Option String)
  | missingSchema
  | otherError

/-- The effectful collaborators of the resolver, as deterministic oracles:
the HTTP client, local file reads (`none` is a raised read error), and
`mimetypes.guess_type` (`none` is an undeterminable type). -/
structure Env where
  http : String → HttpResult
  readFile : String → Option (List Nat)
  guessType : String → Option String

/-! ## `ArticleTreeProcessor.get_image` -/

/-- `ArticleTreeProcessor.get_image`: resolve an image reference to
`(content bytes, mimetype)` — `none` content on failure — together with the
warnings logged. -/
def get_image (env : Env) (lp : Option String) (url : String) :
    (Option (List Nat) × Option String) × List Warning :=
  match env.http url with
  | .response status content ctype =>
    if status ≠ 200 then ((none, none), [.unableToGet url])
    else ((some content, ctype), [])
  | .otherError => ((none, none), [.unableToGetErr url])
  | .missingSchema =>
    match lp with
    | none => ((none, none), [.cantFindLocal url])
    | some d =>
      match env.readFile (pyJoin d url) with
      | none => ((none, none), [.unableLocal (pyJoin d url)])
      | some content =>
        match env.guessType url with
        | none => ((none, none), [.cantMimetype url])
        | some mt => ((some content, some mt), [])

/-! ## Image inlining (the `img` loop of `ArticleTreeProcessor.run`) -/

/-- The body of the image loop for one `img` element's attributes.
Returns the new attributes, the warnings logged, and the list of `src`
values handed to `get_image`.  `none` models the `KeyError` raised by
`img.attrib['src']` when the attribute is absent. -/
def processImgAttrib (env : Env) (lp : Option String) (a : Attrib) :
    Option (Attrib × List Warning × List String) :=
  match attribGet? a "src" with
  | none => none
  | some src =>
    if src = "" ∨ pyStartsWith src "data:" = true then some (a, [], [])
    else
      match get_image env lp src with
      | ((none, _), ws) => some (a, ws, [src])
      | ((some content, mt), ws) =>
        if content = [] then some (a, ws, [src])
        else some (attribSet a "src"
            ("data:" ++ pyFormat mt ++ ";base64," ++ b64encode content), ws, [src])

mutual
/-- Apply the image loop to an element (if it is an `img`) and, in document
order, to all of its descendants.  `none` propagates a modelled exception. -/
def inlineNode (env : Env) (lp : Option String) :
    Element → Option (Element × List Warning × List String)
  | .mk tag attrib text tail children =>
    match (if tag = "img" then processImgAttrib env lp attrib
           else some (attrib, ([] : List Warning), ([] : List String))) with
    | none => none
    | some (attrib', w1, f1) =>
      match inlineList env lp children with
      | none => none
      | some (children', w2, f2) =>
        some (.mk tag attrib' text tail children', w1 ++ w2, f1 ++ f2)

def inlineList (env : Env) (lp : Option String) :
    List Element → Option (List Element × List Warning × List String)
  | [] => some ([], [], [])
  | c :: rest =>
    match inlineNode env lp c with
    | none => none
    | some (c', w1, f1) =>
      match inlineList env lp rest with
      | none => none
      | some (rest', w2, f2) => some (c' :: rest', w1 ++ w2, f1 ++ f2)
end

/-- The whole image pass: `root.findall('.//img')` yields descendants only,
so the root element itself is not an `img` candidate. -/
def inlineImages (env : Env) (lp : Option String) (root : Element) :
    Option (Element × List Warning × List String) :=
  match root with
  | .mk tag attrib text tail children =>
    match inlineList env lp children with
    | none => none
    | some (children', w, f) => some (.mk tag attrib text tail children', w, f)

/-! ## `ArticlePreProcessor.run` -/

/-- `ArticlePreProcessor.run(lines)`: returns `(ArticleTitle, new lines)`;
`none` models the `IndexError` from `lines[0]` / `lines[1]` when the buffer
holds fewer than two lines. -/
def preProcessorRun (lines : List String) : Option (String × List String) :=
  match lines with
  | first :: second :: rest =>
    if first ≠ "" ∧ second = "" ∧ pyContainsChar first ':' = false then
      some (pyLstrip first ['#', ' '], rest)
    else
      some ("", first :: second :: rest)
  | _ => none

/-! ## `ArticleTreeProcessor.run` -/

/-- A parsed metadata block: string keys mapped to lists of value lines,
`Option` at use sites models `hasattr(md, 'Meta')`. -/
abbrev MetaMap := List (String × List String)

def metaGet? (m : MetaMap) (k : String) : Option (List String) :=
  match m with
  | [] => none
  | (k', v) :: rest => if k' = k then some v else metaGet? rest k

/-- `hasattr(md, 'Meta') and k in md.Meta`. -/
def metaHas (meta : Option MetaMap) (k : String) : Bool :=
  match meta with
  | none => false
  | some m => (metaGet? m k).isSome

/-- Lines 98–99: metadata `title` overrides the preprocessor title.
`none` models the `IndexError` of `Meta['title'][0]` on an empty list. -/
def metaTitleStep (meta : Option MetaMap) (title0 : String) : Option String :=
  match meta with
  | none => some title0
  | some m =>
    match metaGet? m "title" with
    | none => some title0
    | some [] => none
    | some (v :: _) => some v

/-- Lines 101–113: the `h1` title rule.  `root.find('h1')` is the first
direct child tagged `h1`; since `Element` carries no object identity, the
Python identity test `root[0] != h1` holds exactly when the first child's
tag is not `h1` (`find` returns the first `h1` child, which is `root[0]`
itself whenever `root[0]` is tagged `h1`). -/
def h1Step (title1 : String) (root : Element) : String × List Warning :=
  match root.children.find? (fun c => c.tag == "h1") with
  | none => if title1 = "" then (title1, [.noTitle]) else (title1, [])
  | some h =>
    if root.children.head?.map Element.tag = some "h1" then
      if title1 = "" then (h.text, []) else (h.text, [.twoTitles h.text])
    else (title1, [.lateTitle h.text])

/-- Line 121: tag the preamble paragraph with an extra style class. -/
def addPreambleClass (e : Element) : Element :=
  match e with
  | .mk t a x l cs =>
    .mk t (attribSet a "class" (attribGetD a "class" "" ++ " article_preamble")) x l cs

/-- Replace the first list entry satisfying `p` by its image under `f`
(in-place mutation of the found child, in the Python original). -/
def updateFirst (p : Element → Bool) (f : Element → Element) :
    List Element → List Element
  | [] => []
  | c :: rest => if p c then f c :: rest else c :: updateFirst p f rest

/-- Lines 115–121: preamble extraction.  Returns the preamble text, the
updated tree, and the warnings logged (the stage logs none). -/
def preambleStep (meta : Option MetaMap) (root : Element) :
    String × Element × List Warning :=
  let nopre := metaHas meta "noarticle"
  match root.children.find? (fun c => c.tag == "p") with
  | none => ("", root, [])
  | some p =>
    if nopre = true then ("", root, [])
    else (toText p,
          root.withChildren (updateFirst (fun c => c.tag == "p") addPreambleClass
            root.children),
          [])

/-- The result of `ArticleTreeProcessor.run`. -/
structure TreeResult where
  root : Element
  title : String
  preamble : String
  warnings : List Warning
  fetched : List String

/-- `ArticleTreeProcessor.run`: metadata title override, `h1` rule,
preamble extraction, then image inlining, in source order. -/
def treeRun (env : Env) (lp : Option String) (meta : Option MetaMap)
    (title0 : String) (root : Element) : Option TreeResult :=
  match metaTitleStep meta title0 with
  | none => none
  | some title1 =>
    let t := h1Step title1 root
    let p := preambleStep meta root
    match inlineImages env lp p.2.1 with
    | none => none
    | some (root2, w3, fs) => some ⟨root2, t.1, p.1, t.2 ++ p.2.2 ++ w3, fs⟩

/-! ## `conv_markdown` -/

/-- A metadata value in the result mapping: a raw metadata list of lines,
or a derived plain string. -/
inductive MetaVal where
  | str (s : String)
  | list (l : List String)
deriving DecidableEq

def metaValGet? (m : List (String × MetaVal)) (k : String) : Option MetaVal :=
  match m with
  | [] => none
  | (k', v) :: rest => if k' = k then some v else metaValGet? rest k

/-- Python `metadata[k] = v` on the result mapping. -/
def metaValSet (m : List (String × MetaVal)) (k : String) (v : MetaVal) :
    List (String × MetaVal) :=
  match m with
  | [] => [(k, v)]
  | (k', v') :: rest => if k' = k then (k, v) :: rest else (k', v') :: metaValSet rest k v

/-- `conv_markdown(content, local_path)`.  The generic Markdown engine is
the oracle `parse` (line buffer to tree and metadata block) and the final
tree-to-HTML serialization is the oracle `serialize`; both are external
library services.  Returns `(html, metadata)`, `none` when a modelled
exception escapes. -/
def conv_markdown (env : Env) (parse : List String → Element × MetaMap)
    (serialize : Element → String) (lp : Option String) (lines : List String) :
    Option (String × List (String × MetaVal)) :=
  match preProcessorRun lines with
  | none => none
  | some (title0, lines') =>
    let pr := parse lines'
    match treeRun env lp (some pr.2) title0 pr.1 with
    | none => none
    | some res =>
      let metadata := pr.2.map (fun kv => (kv.1, MetaVal.list kv.2))
      let metadata := metaValSet metadata "description" (.str res.preamble)
      let metadata := metaValSet metadata "title" (.str res.title)
      some (serialize res.root, metadata)

/-! ## Helper lemmas -/

theorem toList_append (a b : String) : (a ++ b).toList = a.toList ++ b.toList := by
  cases a; cases b; rfl

theorem isPrefixOf_self_append (l t : List Char) : List.isPrefixOf l (l ++ t) = true := by
  induction l with
  | nil => simp
  | cons a as ih => simp [List.isPrefixOf, ih]

theorem pyStartsWith_self_append (p r : String) : pyStartsWith (p ++ r) p = true := by
  unfold pyStartsWith
  rw [toList_append]
  exact isPrefixOf_self_append _ _

theorem attribGet?_attribSet (a : Attrib) (k v : String) :
    attribGet? (attribSet a k v) k = some v := by
  induction a with
  | nil => simp [attribSet, attribGet?]
  | cons kv rest ih =>
    obtain ⟨k', v'⟩ := kv
    by_cases h : k' = k
    · simp [attribSet, attribGet?, h]
    · simp [attribSet, attribGet?, h, ih]

theorem metaValGet?_metaValSet (m : List (String × MetaVal)) (k : String) (v : MetaVal) :
    metaValGet? (metaValSet m k v) k = some v := by
  induction m with
  | nil => simp [metaValSet, metaValGet?]
  | cons kv rest ih =>
    obtain ⟨k', v'⟩ := kv
    by_cases h : k' = k
    · simp [metaValSet, metaValGet?, h]
    · simp [metaValSet, metaValGet?, h, ih]

theorem pyStartsWith_dataUrl (m b c : String) :
    pyStartsWith ("data:" ++ m ++ b ++ c) "data:" = true := by
  unfold pyStartsWith
  rw [toList_append, toList_append, toList_append, List.append_assoc, List.append_assoc]
  exact isPrefixOf_self_append _ _

theorem processImgAttrib_of_no_src (env : Env) (lp : Option String) (a : Attrib)
    (h : attribGet? a "src" = none) : processImgAttrib env lp a = none := by
  unfold processImgAttrib
  rw [h]

theorem processImgAttrib_skip (env : Env) (lp : Option String) (a : Attrib) (src : String)
    (hget : attribGet? a "src" = some src)
    (hskip : src = "" ∨ pyStartsWith src "data:" = true) :
    processImgAttrib env lp a = some (a, [], []) := by
  simp only [processImgAttrib, hget]
  rw [if_pos hskip]

theorem processImgAttrib_isSome (env : Env) (lp : Option String) (a : Attrib) (src : String)
    (h : attribGet? a "src" = some src) :
    ∃ r, processImgAttrib env lp a = some r := by
  simp only [processImgAttrib, h]
  split
  · exact ⟨_, rfl⟩
  · split
    · exact ⟨_, rfl⟩
    · split
      · exact ⟨_, rfl⟩
      · exact ⟨_, rfl⟩

theorem processImgAttrib_unchanged (env : Env) (lp : Option String) (a : Attrib) (src : String)
    (h : attribGet? a "src" = some src)
    (hfail : (get_image env lp src).1.1 = none) :
    ∃ ws fs, processImgAttrib env lp a = some (a, ws, fs) := by
  simp only [processImgAttrib, h]
  split
  · exact ⟨[], [], rfl⟩
  · split
    · exact ⟨_, _, rfl⟩
    · next content mt ws heq =>
        rw [heq] at hfail
        simp at hfail

theorem processImgAttrib_idem (env : Env) (lp : Option String) (a a' : Attrib)
    (w : List Warning) (f : List String)
    (h : processImgAttrib env lp a = some (a', w, f)) :
    ∃ w' f', processImgAttrib env lp a' = some (a', w', f') := by
  rcases hsrc : attribGet? a "src" with - | src
  · rw [processImgAttrib_of_no_src env lp a hsrc] at h
    exact absurd h (by simp)
  · simp only [processImgAttrib, hsrc] at h
    by_cases hskip : src = "" ∨ pyStartsWith src "data:" = true
    · rw [if_pos hskip] at h
      obtain ⟨rfl, -, -⟩ : a = a' ∧ [] = w ∧ [] = f := by
        simpa using h
      exact ⟨[], [], processImgAttrib_skip env lp a src hsrc hskip⟩
    · rw [if_neg hskip] at h
      rcases hg : get_image env lp src with ⟨⟨c, mt⟩, ws⟩
      rw [hg] at h
      rcases c with - | content
      · obtain ⟨rfl, rfl, rfl⟩ : a = a' ∧ ws = w ∧ [src] = f := by simpa using h
        refine ⟨ws, [src], ?_⟩
        simp only [processImgAttrib, hsrc]
        rw [if_neg hskip, hg]
      · by_cases hc : content = []
        · obtain ⟨rfl, rfl, rfl⟩ : a = a' ∧ ws = w ∧ [src] = f := by simpa [hc] using h
          refine ⟨ws, [src], ?_⟩
          simp only [processImgAttrib, hsrc]
          rw [if_neg hskip, hg]
          simp [hc]
        · obtain ⟨rfl, rfl, rfl⟩ :
              attribSet a "src" ("data:" ++ pyFormat mt ++ ";base64," ++ b64encode content) = a'
                ∧ ws = w ∧ [src] = f := by simpa [hc] using h
          refine ⟨[], [], processImgAttrib_skip env lp _ _ (attribGet?_attribSet a "src" _) ?_⟩
          exact Or.inr (pyStartsWith_dataUrl _ _ _)

theorem inlineNode_eq (env : Env) (lp : Option String) (tag : String) (attrib : Attrib)
    (text tail : String) (children : List Element) :
    inlineNode env lp (.mk tag attrib text tail children) =
      match (if tag = "img" then processImgAttrib env lp attrib
             else some (attrib, ([] : List Warning), ([] : List String))) with
      | none => none
      | some (attrib', w1, f1) =>
        match inlineList env lp children with
        | none => none
        | some (children', w2, f2) =>
          some (.mk tag attrib' text tail children', w1 ++ w2, f1 ++ f2) := by
  rw [inlineNode]

theorem inlineList_nil (env : Env) (lp : Option String) :
    inlineList env lp [] = some ([], [], []) := by
  rw [inlineList]

theorem inlineList_cons (env : Env) (lp : Option String) (c : Element) (rest : List Element) :
    inlineList env lp (c :: rest) =
      match inlineNode env lp c with
      | none => none
      | some (c', w1, f1) =>
        match inlineList env lp rest with
        | none => none
        | some (rest', w2, f2) => some (c' :: rest', w1 ++ w2, f1 ++ f2) := by
  rw [inlineList]

mutual
theorem inlineNode_idem (env : Env) (lp : Option String) :
    ∀ (e e' : Element) (w : List Warning) (f : List String),
      inlineNode env lp e = some (e', w, f) →
      ∃ w' f', inlineNode env lp e' = some (e', w', f')
  | .mk tag attrib text tail children, e', w, f, h => by
    rw [inlineNode_eq] at h
    cases hA : (if tag = "img" then processImgAttrib env lp attrib
                else some (attrib, ([] : List Warning), ([] : List String))) with
    | none => rw [hA] at h; simp at h
    | some p =>
      obtain ⟨attrib', w1, f1⟩ := p
      rw [hA] at h
      cases hC : inlineList env lp children with
      | none => rw [hC] at h; simp at h
      | some q =>
        obtain ⟨children', w2, f2⟩ := q
        rw [hC] at h
        obtain ⟨he, hw, hf⟩ :
            Element.mk tag attrib' text tail children' = e' ∧ w1 ++ w2 = w ∧ f1 ++ f2 = f := by
          simpa using h
        subst he
        have hA2 : ∃ w1' f1',
            (if tag = "img" then processImgAttrib env lp attrib'
             else some (attrib', ([] : List Warning), ([] : List String)))
              = some (attrib', w1', f1') := by
          by_cases htag : tag = "img"
          · rw [if_pos htag] at hA ⊢
            exact processImgAttrib_idem env lp attrib attrib' w1 f1 hA
          · rw [if_neg htag] at hA ⊢
            obtain ⟨rfl, -, -⟩ : attrib = attrib' ∧ [] = w1 ∧ [] = f1 := by simpa using hA
            exact ⟨[], [], rfl⟩
        obtain ⟨w1', f1', hA2⟩ := hA2
        obtain ⟨w2', f2', hC2⟩ := inlineList_idem env lp children children' w2 f2 hC
        refine ⟨w1' ++ w2', f1' ++ f2', ?_⟩
        rw [inlineNode_eq, hA2, hC2]

theorem inlineList_idem (env : Env) (lp : Option String) :
    ∀ (cs cs' : List Element) (w : List Warning) (f : List String),
      inlineList env lp cs = some (cs', w, f) →
      ∃ w' f', inlineList env lp cs' = some (cs', w', f')
  | [], cs', w, f, h => by
    rw [inlineList_nil] at h
    obtain ⟨rfl, -, -⟩ : [] = cs' ∧ [] = w ∧ [] = f := by simpa using h
    exact ⟨[], [], inlineList_nil env lp⟩
  | c :: rest, cs', w, f, h => by
    rw [inlineList_cons] at h
    cases hc : inlineNode env lp c with
    | none => rw [hc] at h; simp at h
    | some p =>
      obtain ⟨c', w1, f1⟩ := p
      rw [hc] at h
      cases hr : inlineList env lp rest with
      | none => rw [hr] at h; simp at h
      | some q =>
        obtain ⟨rest', w2, f2⟩ := q
        rw [hr] at h
        obtain ⟨he, hw, hf⟩ : c' :: rest' = cs' ∧ w1 ++ w2 = w ∧ f1 ++ f2 = f := by
          simpa using h
        subst he
        obtain ⟨w1', f1', hc2⟩ := inlineNode_idem env lp c c' w1 f1 hc
        obtain ⟨w2', f2', hr2⟩ := inlineList_idem env lp rest rest' w2 f2 hr
        refine ⟨w1' ++ w2', f1' ++ f2', ?_⟩
        rw [inlineList_cons, hc2, hr2]
end

theorem inlineNode_shape (env : Env) (lp : Option String) (e e' : Element)
    (w : List Warning) (f : List String) (h : inlineNode env lp e = some (e', w, f)) :
    e'.tag = e.tag ∧ e'.text = e.text ∧ e'.tail = e.tail ∧
      (e.tag ≠ "img" → e'.attrib = e.attrib) := by
  obtain ⟨tag, attrib, text, tail, children⟩ := e
  rw [inlineNode_eq] at h
  cases hA : (if tag = "img" then processImgAttrib env lp attrib
              else some (attrib, ([] : List Warning), ([] : List String))) with
  | none => rw [hA] at h; simp at h
  | some p =>
    obtain ⟨attrib', w1, f1⟩ := p
    rw [hA] at h
    cases hC : inlineList env lp children with
    | none => rw [hC] at h; simp at h
    | some q =>
      obtain ⟨children', w2, f2⟩ := q
      rw [hC] at h
      obtain ⟨he, -, -⟩ :
          Element.mk tag attrib' text tail children' = e' ∧ w1 ++ w2 = w ∧ f1 ++ f2 = f := by
        simpa using h
      subst he
      refine ⟨rfl, rfl, rfl, fun htag => ?_⟩
      rw [if_neg (by simpa [Element.tag] using htag)] at hA
      obtain ⟨rfl, -, -⟩ : attrib = attrib' ∧ [] = w1 ∧ [] = f1 := by simpa using hA
      rfl

theorem processImgAttrib_some_any_env (env env2 : Env) (lp : Option String) (a : Attrib)
    (x : Attrib × List Warning × List String) (h : processImgAttrib env lp a = some x) :
    ∃ y, processImgAttrib env2 lp a = some y := by
  cases hsrc : attribGet? a "src" with
  | none => rw [processImgAttrib_of_no_src env lp a hsrc] at h; simp at h
  | some src => exact processImgAttrib_isSome env2 lp a src hsrc

mutual
theorem inlineNode_some_any_env (env env2 : Env) (lp : Option String) :
    ∀ (e : Element) (x : Element × List Warning × List String),
      inlineNode env lp e = some x → ∃ y, inlineNode env2 lp e = some y
  | .mk tag attrib text tail children, x, h => by
    rw [inlineNode_eq] at h
    cases hA : (if tag = "img" then processImgAttrib env lp attrib
                else some (attrib, ([] : List Warning), ([] : List String))) with
    | none => rw [hA] at h; simp at h
    | some p =>
      obtain ⟨attrib', w1, f1⟩ := p
      rw [hA] at h
      cases hC : inlineList env lp children with
      | none => rw [hC] at h; simp at h
      | some q =>
        obtain ⟨children', w2, f2⟩ := q
        have hA2 : ∃ p2, (if tag = "img" then processImgAttrib env2 lp attrib
            else some (attrib, ([] : List Warning), ([] : List String))) = some p2 := by
          by_cases htag : tag = "img"
          · rw [if_pos htag] at hA ⊢
            exact processImgAttrib_some_any_env env env2 lp attrib _ hA
          · rw [if_neg htag]
            exact ⟨_, rfl⟩
        obtain ⟨⟨attrib2, w1', f1'⟩, hA2⟩ := hA2
        obtain ⟨⟨children2, w2', f2'⟩, hC2⟩ :=
          inlineList_some_any_env env env2 lp children _ hC
        exact ⟨_, by rw [inlineNode_eq, hA2, hC2]⟩

theorem inlineList_some_any_env (env env2 : Env) (lp : Option String) :
    ∀ (cs : List Element) (x : List Element × List Warning × List String),
      inlineList env lp cs = some x → ∃ y, inlineList env2 lp cs = some y
  | [], x, _ => ⟨_, inlineList_nil env2 lp⟩
  | c :: rest, x, h => by
    rw [inlineList_cons] at h
    cases hc : inlineNode env lp c with
    | none => rw [hc] at h; simp at h
    | some p =>
      rw [hc] at h
      cases hr : inlineList env lp rest with
      | none => rw [hr] at h; obtain ⟨c', w1, f1⟩ := p; simp at h
      | some q =>
        obtain ⟨⟨c2, w1', f1'⟩, hc2⟩ := inlineNode_some_any_env env env2 lp c _ hc
        obtain ⟨⟨rest2, w2', f2'⟩, hr2⟩ := inlineList_some_any_env env env2 lp rest _ hr
        exact ⟨_, by rw [inlineList_cons, hc2, hr2]⟩
end

theorem inlineList_length (env : Env) (lp : Option String) :
    ∀ (cs cs' : List Element) (w : List Warning) (f : List String),
      inlineList env lp cs = some (cs', w, f) → cs'.length = cs.length
  | [], cs', w, f, h => by
    rw [inlineList_nil] at h
    obtain ⟨rfl, -, -⟩ : [] = cs' ∧ [] = w ∧ [] = f := by simpa using h
    rfl
  | c :: rest, cs', w, f, h => by
    rw [inlineList_cons] at h
    cases hc : inlineNode env lp c with
    | none => rw [hc] at h; simp at h
    | some p =>
      obtain ⟨c', w1, f1⟩ := p
      rw [hc] at h
      cases hr : inlineList env lp rest with
      | none => rw [hr] at h; simp at h
      | some q =>
        obtain ⟨rest', w2, f2⟩ := q
        rw [hr] at h
        obtain ⟨he, -, -⟩ : c' :: rest' = cs' ∧ w1 ++ w2 = w ∧ f1 ++ f2 = f := by
          simpa using h
        subst he
        simpa using inlineList_length env lp rest rest' w2 f2 hr

theorem inlineList_get (env : Env) (lp : Option String) :
    ∀ (cs cs' : List Element) (w : List Warning) (f : List String),
      inlineList env lp cs = some (cs', w, f) →
      ∀ (i : Nat) (c : Element), cs[i]? = some c →
        ∃ c' w1 f1, cs'[i]? = some c' ∧ inlineNode env lp c = some (c', w1, f1)
  | [], cs', w, f, h, i, c, hi => by simp at hi
  | c0 :: rest, cs', w, f, h, i, c, hi => by
    rw [inlineList_cons] at h
    cases hc : inlineNode env lp c0 with
    | none => rw [hc] at h; simp at h
    | some p =>
      obtain ⟨c0', w1, f1⟩ := p
      rw [hc] at h
      cases hr : inlineList env lp rest with
      | none => rw [hr] at h; simp at h
      | some q =>
        obtain ⟨rest', w2, f2⟩ := q
        rw [hr] at h
        obtain ⟨he, -, -⟩ : c0' :: rest' = cs' ∧ w1 ++ w2 = w ∧ f1 ++ f2 = f := by
          simpa using h
        subst he
        cases i with
        | zero =>
          obtain rfl : c0 = c := by simpa using hi
          exact ⟨c0', w1, f1, by simp, hc⟩
        | succ n =>
          have hi' : rest[n]? = some c := by simpa using hi
          obtain ⟨c', w1', f1', hg, hn⟩ :=
            inlineList_get env lp rest rest' w2 f2 hr n c hi'
          exact ⟨c', w1', f1', by simpa using hg, hn⟩

theorem updateFirst_length (p : Element → Bool) (f : Element → Element) :
    ∀ (l : List Element), (updateFirst p f l).length = l.length
  | [] => rfl
  | c :: rest => by
    unfold updateFirst
    split
    · rfl
    · simpa using updateFirst_length p f rest

theorem updateFirst_get (p : Element → Bool) (f : Element → Element) :
    ∀ (l : List Element) (i : Nat) (c : Element),
      l[i]? = some c →
      ∃ c', (updateFirst p f l)[i]? = some c' ∧ (c' = c ∨ c' = f c)
  | [], i, c, hi => by simp at hi
  | c0 :: rest, i, c, hi => by
    unfold updateFirst
    split
    · cases i with
      | zero =>
        obtain rfl : c0 = c := by simpa using hi
        exact ⟨f c0, by simp, Or.inr rfl⟩
      | succ n =>
        have hi' : rest[n]? = some c := by simpa using hi
        exact ⟨c, by simpa using hi', Or.inl rfl⟩
    · cases i with
      | zero =>
        obtain rfl : c0 = c := by simpa using hi
        exact ⟨c0, by simp, Or.inl rfl⟩
      | succ n =>
        have hi' : rest[n]? = some c := by simpa using hi
        obtain ⟨c', hg, hor⟩ := updateFirst_get p f rest n c hi'
        exact ⟨c', by simpa using hg, hor⟩

theorem updateFirst_append (p : Element → Bool) (f : Element → Element) :
    ∀ (pre : List Element) (x : Element) (post : List Element),
      (∀ q ∈ pre, p q = false) → p x = true →
      updateFirst p f (pre ++ x :: post) = pre ++ f x :: post
  | [], x, post, _, hx => by simp [updateFirst, hx]
  | q0 :: pre, x, post, hpre, hx => by
    have hq0 : p q0 = false := hpre q0 (by simp)
    simp only [List.cons_append, updateFirst, hq0]
    simp [updateFirst_append p f pre x post (fun q hq => hpre q (by simp [hq])) hx]

theorem find?_first (p : Element → Bool) :
    ∀ (pre : List Element) (x : Element) (post : List Element),
      (∀ q ∈ pre, p q = false) → p x = true →
      (pre ++ x :: post).find? p = some x
  | [], x, post, _, hx => by simp [List.find?_cons, hx]
  | q0 :: pre, x, post, hpre, hx => by
    have hq0 : p q0 = false := hpre q0 (by simp)
    simp only [List.cons_append, List.find?_cons, hq0]
    exact find?_first p pre x post (fun q hq => hpre q (by simp [hq])) hx

theorem getElem?_append_middle {α : Type} :
    ∀ (pre : List α) (x : α) (post : List α), (pre ++ x :: post)[pre.length]? = some x
  | [], x, post => by simp
  | a :: pre, x, post => by simpa using getElem?_append_middle pre x post

theorem addPreambleClass_parts (e : Element) :
    (addPreambleClass e).tag = e.tag ∧ (addPreambleClass e).text = e.text ∧
      (addPreambleClass e).attrib
        = attribSet e.attrib "class" (attribGetD e.attrib "class" "" ++ " article_preamble") := by
  obtain ⟨t, a, x, l, cs⟩ := e
  exact ⟨rfl, rfl, rfl⟩

theorem inlineImages_some_elim (env : Env) (lp : Option String) (root : Element)
    (x : Element × List Warning × List String) (h : inlineImages env lp root = some x) :
    ∃ children' w f,
      inlineList env lp root.children = some (children', w, f) ∧
      x = (root.withChildren children', w, f) := by
  obtain ⟨tag, attrib, text, tail, children⟩ := root
  simp only [inlineImages] at h
  cases hC : inlineList env lp children with
  | none => rw [hC] at h; simp at h
  | some q =>
    obtain ⟨children', w, f⟩ := q
    rw [hC] at h
    exact ⟨children', w, f, hC, by simpa using h.symm⟩

theorem treeRun_some_elim (env : Env) (lp : Option String) (meta : Option MetaMap)
    (title0 : String) (root : Element) (res : TreeResult)
    (h : treeRun env lp meta title0 root = some res) :
    ∃ title1 root2 w3 fs,
      metaTitleStep meta title0 = some title1 ∧
      inlineImages env lp (preambleStep meta root).2.1 = some (root2, w3, fs) ∧
      res = ⟨root2, (h1Step title1 root).1, (preambleStep meta root).1,
             (h1Step title1 root).2 ++ (preambleStep meta root).2.2 ++ w3, fs⟩ := by
  simp only [treeRun] at h
  cases hm : metaTitleStep meta title0 with
  | none => rw [hm] at h; simp at h
  | some title1 =>
    rw [hm] at h
    cases hI : inlineImages env lp (preambleStep meta root).2.1 with
    | none => rw [hI] at h; simp at h
    | some x =>
      obtain ⟨root2, w3, fs⟩ := x
      rw [hI] at h
      exact ⟨title1, root2, w3, fs, rfl, rfl, by simpa using h.symm⟩

theorem inlineImages_some_any_env (env env2 : Env) (lp : Option String) (root : Element)
    (x : Element × List Warning × List String) (h : inlineImages env lp root = some x) :
    ∃ y, inlineImages env2 lp root = some y := by
  obtain ⟨tag, attrib, text, tail, children⟩ := root
  simp only [inlineImages] at h ⊢
  cases hC : inlineList env lp children with
  | none => rw [hC] at h; simp at h
  | some q =>
    obtain ⟨⟨cs2, w2, f2⟩, hC2⟩ := inlineList_some_any_env env env2 lp children q hC
    rw [hC2]
    exact ⟨_, rfl⟩

theorem treeRun_some_any_env (env env2 : Env) (lp : Option String) (meta : Option MetaMap)
    (title0 : String) (root : Element) (res : TreeResult)
    (h : treeRun env lp meta title0 root = some res) :
    ∃ res2, treeRun env2 lp meta title0 root = some res2 := by
  obtain ⟨title1, root2, w3, fs, hm, hI, -⟩ := treeRun_some_elim env lp meta title0 root res h
  obtain ⟨⟨root2', w3', fs'⟩, hI2⟩ :=
    inlineImages_some_any_env env env2 lp (preambleStep meta root).2.1 _ hI
  exact ⟨⟨root2', (h1Step title1 root).1, (preambleStep meta root).1,
         (h1Step title1 root).2 ++ (preambleStep meta root).2.2 ++ w3', fs'⟩,
        by simp only [treeRun, hm, hI2]⟩

theorem preambleStep_no_warnings (meta : Option MetaMap) (root : Element) :
    (preambleStep meta root).2.2 = [] := by
  simp only [preambleStep]
  split
  · rfl
  · split <;> rfl

theorem preambleStep_empty (meta : Option MetaMap) (root : Element)
    (h : metaHas meta "noarticle" = true ∨
         root.children.find? (fun c => c.tag == "p") = none) :
    (preambleStep meta root).1 = "" ∧ (preambleStep meta root).2.1 = root := by
  simp only [preambleStep]
  cases hf : root.children.find? (fun c => c.tag == "p") with
  | none => exact ⟨rfl, rfl⟩
  | some p =>
    rcases h with h | h
    · simp [h]
    · rw [hf] at h; simp at h

theorem preambleStep_found (meta : Option MetaMap) (root : Element)
    (pre : List Element) (p : Element) (post : List Element)
    (hsplit : root.children = pre ++ p :: post) (hp : p.tag = "p")
    (hpre : ∀ q ∈ pre, q.tag ≠ "p")
    (hmeta : metaHas meta "noarticle" = false) :
    (preambleStep meta root).1 = toText p ∧
    (preambleStep meta root).2.1 = root.withChildren (pre ++ addPreambleClass p :: post) := by
  have hf : root.children.find? (fun c => c.tag == "p") = some p := by
    rw [hsplit]
    exact find?_first _ pre p post (fun q hq => by simpa using hpre q hq) (by simpa using hp)
  simp only [preambleStep, hf]
  rw [if_neg (by simp [hmeta])]
  refine ⟨rfl, ?_⟩
  rw [hsplit, updateFirst_append _ _ pre p post (fun q hq => by simpa using hpre q hq)
      (by simpa using hp)]

theorem h1Step_first (title1 : String) (root : Element) (h0 : Element) (hs : List Element)
    (hch : root.children = h0 :: hs) (htag : h0.tag = "h1") :
    (h1Step title1 root).1 = h0.text ∧
    (title1 ≠ "" → (h1Step title1 root).2 = [Warning.twoTitles h0.text]) := by
  have hf : root.children.find? (fun c => c.tag == "h1") = some h0 := by
    rw [hch]
    simp [List.find?_cons, htag]
  have hh : root.children.head?.map Element.tag = some "h1" := by
    rw [hch]; simp [htag]
  simp only [h1Step, hf]
  rw [if_pos hh]
  constructor
  · split <;> rfl
  · intro hne
    rw [if_neg hne]

theorem h1Step_late (title1 : String) (root : Element) (h1e : Element)
    (hf : root.children.find? (fun c => c.tag == "h1") = some h1e)
    (hhead : root.children.head?.map Element.tag ≠ some "h1") :
    h1Step title1 root = (title1, [Warning.lateTitle h1e.text]) := by
  simp only [h1Step, hf]
  rw [if_neg hhead]

theorem withChildren_children (e : Element) (cs : List Element) :
    (e.withChildren cs).children = cs := by
  cases e; rfl

theorem preambleStep_found2 (meta : Option MetaMap) (root : Element) (p : Element)
    (hf : root.children.find? (fun c => c.tag == "p") = some p)
    (hmeta : metaHas meta "noarticle" = false) :
    preambleStep meta root = (toText p,
      root.withChildren (updateFirst (fun c => c.tag == "p") addPreambleClass root.children),
      []) := by
  simp only [preambleStep, hf]
  rw [if_neg (by simp [hmeta])]

theorem preambleStep_children_shape (meta : Option MetaMap) (root : Element) :
    (preambleStep meta root).2.1.children.length = root.children.length ∧
    ∀ (i : Nat) (c : Element), root.children[i]? = some c →
      ∃ c', (preambleStep meta root).2.1.children[i]? = some c'
        ∧ c'.tag = c.tag ∧ c'.text = c.text := by
  by_cases hm : metaHas meta "noarticle" = true
  · obtain ⟨-, hroot⟩ := preambleStep_empty meta root (Or.inl hm)
    rw [hroot]
    exact ⟨rfl, fun i c hi => ⟨c, hi, rfl, rfl⟩⟩
  · cases hf : root.children.find? (fun c => c.tag == "p") with
    | none =>
      obtain ⟨-, hroot⟩ := preambleStep_empty meta root (Or.inr hf)
      rw [hroot]
      exact ⟨rfl, fun i c hi => ⟨c, hi, rfl, rfl⟩⟩
    | some p =>
      rw [preambleStep_found2 meta root p hf (by simpa using hm)]
      dsimp only
      constructor
      · rw [withChildren_children]
        exact updateFirst_length _ _ _
      · intro i c hi
        obtain ⟨c', hg, hor⟩ := updateFirst_get (fun c => c.tag == "p") addPreambleClass
          root.children i c hi
        refine ⟨c', by rw [withChildren_children]; exact hg, ?_⟩
        rcases hor with rfl | rfl
        · exact ⟨rfl, rfl⟩
        · obtain ⟨ht, hx, -⟩ := addPreambleClass_parts c
          exact ⟨ht, hx⟩

theorem inlineImages_children_shape (env : Env) (lp : Option String) (root : Element)
    (x : Element × List Warning × List String) (h : inlineImages env lp root = some x) :
    x.1.children.length = root.children.length ∧
    ∀ (i : Nat) (c : Element), root.children[i]? = some c →
      ∃ c', x.1.children[i]? = some c' ∧ c'.tag = c.tag ∧ c'.text = c.text := by
  obtain ⟨children', w, f, hC, hx⟩ := inlineImages_some_elim env lp root x h
  subst hx
  constructor
  · rw [withChildren_children]
    exact inlineList_length env lp _ _ _ _ hC
  · intro i c hi
    obtain ⟨c', w1, f1, hg, hn⟩ := inlineList_get env lp _ _ _ _ hC i c hi
    obtain ⟨ht, hx2, -, -⟩ := inlineNode_shape env lp c c' w1 f1 hn
    exact ⟨c', by rw [withChildren_children]; exact hg, ht, hx2⟩

/-! ## Concrete test oracles and documents (used by witnesses) -/

/-- Test oracle: every network access raises a non-schema error. -/
def testEnvErr : Env := ⟨fun _ => .otherError, fun _ => none, fun _ => none⟩

/-- Test oracle: every URL yields a 200 response, PNG content type, bytes 1,2,3. -/
def testEnvPng : Env :=
  ⟨fun _ => .response 200 [1, 2, 3] (some "image/png"), fun _ => none, fun _ => none⟩

/-- Test oracle: a 200 response with one byte and no declared content type. -/
def testEnvNoCT : Env := ⟨fun _ => .response 200 [1] none, fun _ => none, fun _ => none⟩

/-- Test oracle: every URL is schemeless; one local file `dir/img.png`. -/
def testEnvLocal : Env :=
  ⟨fun _ => .missingSchema,
   fun p => if p = "dir/img.png" then some [7] else none,
   fun u => if u = "img.png" then some "image/png" else none⟩

/-- A small document tree: one paragraph. -/
def testDoc : Element := .mk "div" [] "" "" [.mk "p" [] "hello" "" []]

/-- A document tree whose only image is already inlined. -/
def testDocData : Element := .mk "div" [] "" "" [.mk "img" [("src", "data:x")] "" "" []]

/-- A document tree with a leading `h1` and a paragraph. -/
def testDocH1 : Element :=
  .mk "div" [] "" "" [.mk "h1" [] "Title" "" [], .mk "p" [] "body" "" []]

/-! ## Claim theorems -/

/-- C1 (amended): for every document whose line buffer holds at least two
lines, if the first raw line is non-empty, the second line is empty, and the
first line contains no colon, the pre-parse stage sets the title to the first
line with leading `#`/space characters stripped and removes the first two
lines; otherwise the buffer is returned unchanged with an empty title.
(A buffer with fewer than two lines instead hits an indexing error.) -/
theorem C1_preprocessor_title_rule (first second : String) (rest : List String) :
    (first ≠ "" ∧ second = "" ∧ pyContainsChar first ':' = false →
      preProcessorRun (first :: second :: rest) = some (pyLstrip first ['#', ' '], rest)) ∧
    (¬(first ≠ "" ∧ second = "" ∧ pyContainsChar first ':' = false) →
      preProcessorRun (first :: second :: rest) = some ("", first :: second :: rest)) := by
  constructor
  · intro h
    simp only [preProcessorRun]
    rw [if_pos h]
  · intro h
    simp only [preProcessorRun]
    rw [if_neg h]

/-- C1 counterexample: on a one-line buffer — which meets none of the three
conditions, lacking a second line — the pre-parse stage raises an indexing
error instead of returning the buffer unchanged with an empty title. -/
theorem C1_short_buffer_counterexample :
    preProcessorRun ["x"] = none ∧ preProcessorRun ["x"] ≠ some ("", ["x"]) := by
  decide

/-- Witness for C1 at concrete inputs: both the title branch and the
unchanged branch. -/
theorem C1_preprocessor_title_rule_witness :
    preProcessorRun ["## T", "", "body"] = some ("T", ["body"]) ∧
    preProcessorRun ["a:b", "x"] = some ("", ["a:b", "x"]) := by
  constructor
  · have h := (C1_preprocessor_title_rule "## T" "" ["body"]).1 (by decide)
    exact h.trans (by decide)
  · exact (C1_preprocessor_title_rule "a:b" "x" []).2 (by decide)

/-- C10: the pre-parse stage reads the first two entries of the line buffer
unconditionally, so it reaches the indexing-error branch exactly when the
buffer holds fewer than two lines, and returns a result otherwise. -/
theorem C10_preprocessor_totality (lines : List String) :
    preProcessorRun lines = none ↔ lines.length < 2 := by
  match lines with
  | [] => simp [preProcessorRun]
  | [a] => simp [preProcessorRun]
  | a :: b :: rest =>
    constructor
    · intro h
      simp only [preProcessorRun] at h
      split at h <;> simp at h
    · intro h
      simp at h
      omega

/-- C4: for every image node whose `src` the HTTP client answers with
status 200, non-empty content bytes and a declared content type, the
transform rewrites the node's `src` to
`data:<content-type>;base64,<base64 of the fetched bytes>`. -/
theorem C4_url_inlining (env : Env) (lp : Option String) (a : Attrib)
    (src ct : String) (content : List Nat)
    (hsrc : attribGet? a "src" = some src)
    (hne : src ≠ "") (hnd : pyStartsWith src "data:" = false)
    (hhttp : env.http src = .response 200 content (some ct))
    (hcontent : content ≠ []) :
    processImgAttrib env lp a =
      some (attribSet a "src" ("data:" ++ ct ++ ";base64," ++ b64encode content),
            [], [src]) ∧
    attribGet? (attribSet a "src" ("data:" ++ ct ++ ";base64," ++ b64encode content)) "src"
      = some ("data:" ++ ct ++ ";base64," ++ b64encode content) := by
  have hg : get_image env lp src = ((some content, some ct), []) := by
    simp [get_image, hhttp]
  constructor
  · simp only [processImgAttrib, hsrc]
    rw [if_neg (by simp [hne, hnd]), hg]
    simp [hcontent, pyFormat]
  · exact attribGet?_attribSet a "src" _

/-- Witness for C4: a concrete three-byte PNG fetch. -/
theorem C4_url_inlining_witness :
    processImgAttrib testEnvPng none [("src", "http://e/i.png")] =
      some ([("src", "data:image/png;base64,AQID")], [], ["http://e/i.png"]) := by
  have h := (C4_url_inlining testEnvPng none [("src", "http://e/i.png")]
      "http://e/i.png" "image/png" [1, 2, 3]
      (by decide) (by decide) (by decide) rfl (by decide)).1
  exact h.trans (by decide)

/-- C5: for every image `src` the HTTP client reports as schemeless, with a
local base directory the resolver reads the bytes of `src` joined to that
directory and guesses the MIME type from `src`; a failed read or an
undeterminable MIME type warns and fails, and without a local base
directory it warns and fails. -/
theorem C5_local_resolution (env : Env) (lp : Option String) (src d : String)
    (hms : env.http src = .missingSchema) :
    (lp = some d →
      (∀ content mt, env.readFile (pyJoin d src) = some content →
          env.guessType src = some mt →
          get_image env lp src = ((some content, some mt), [])) ∧
      (env.readFile (pyJoin d src) = none →
          get_image env lp src = ((none, none), [Warning.unableLocal (pyJoin d src)])) ∧
      (∀ content, env.readFile (pyJoin d src) = some content →
          env.guessType src = none →
          get_image env lp src = ((none, none), [Warning.cantMimetype src]))) ∧
    (lp = none →
      get_image env lp src = ((none, none), [Warning.cantFindLocal src])) ∧
    (∀ (a : Attrib), attribGet? a "src" = some src →
      (get_image env lp src).1.1 = none →
      ∃ ws fs, processImgAttrib env lp a = some (a, ws, fs)) := by
  refine ⟨?_, ?_, ?_⟩
  · rintro rfl
    refine ⟨?_, ?_, ?_⟩
    · intro content mt h1 h2
      simp [get_image, hms, h1, h2]
    · intro h1
      simp [get_image, hms, h1]
    · intro content h1 h2
      simp [get_image, hms, h1, h2]
  · rintro rfl
    simp [get_image, hms]
  · intro a h1 h2
    exact processImgAttrib_unchanged env lp a src h1 h2

/-- Witness for C5: a concrete local read of `dir/img.png`. -/
theorem C5_local_resolution_witness :
    get_image testEnvLocal (some "dir") "img.png" = ((some [7], some "image/png"), []) ∧
    get_image testEnvLocal none "img.png" = ((none, none), [Warning.cantFindLocal "img.png"]) := by
  constructor
  · exact ((C5_local_resolution testEnvLocal (some "dir") "img.png" "dir" rfl).1 rfl).1
      [7] "image/png" (by decide) (by decide)
  · exact (C5_local_resolution testEnvLocal none "img.png" "dir" rfl).2.1 rfl

/-- C6: the image resolver never raises past its boundary: every fetch or
read failure — non-200 status, network error, unreadable local file,
undeterminable MIME type, no local base directory — returns `none` content
after logging a warning; a failed resolution leaves the node's `src`
unchanged; and a document conversion that completed under one set of
oracles still completes under any other, so no fetch failure can abort it. -/
theorem C6_resolver_no_raise (env : Env) (lp : Option String) (src : String) :
    (∀ status content ct, env.http src = .response status content ct → status ≠ 200 →
        get_image env lp src = ((none, none), [Warning.unableToGet src])) ∧
    (env.http src = .otherError →
        get_image env lp src = ((none, none), [Warning.unableToGetErr src])) ∧
    (env.http src = .missingSchema → lp = none →
        get_image env lp src = ((none, none), [Warning.cantFindLocal src])) ∧
    (∀ d, env.http src = .missingSchema → lp = some d →
        env.readFile (pyJoin d src) = none →
        get_image env lp src = ((none, none), [Warning.unableLocal (pyJoin d src)])) ∧
    (∀ d content, env.http src = .missingSchema → lp = some d →
        env.readFile (pyJoin d src) = some content → env.guessType src = none →
        get_image env lp src = ((none, none), [Warning.cantMimetype src])) ∧
    (∀ a, attribGet? a "src" = some src → (get_image env lp src).1.1 = none →
        ∃ ws fs, processImgAttrib env lp a = some (a, ws, fs)) ∧
    (∀ env2 meta title0 root res, treeRun env lp meta title0 root = some res →
        ∃ res2, treeRun env2 lp meta title0 root = some res2) := by
  refine ⟨?_, ?_, ?_, ?_, ?_, ?_, ?_⟩
  · intro status content ct h1 h2
    simp [get_image, h1, h2]
  · intro h1
    simp [get_image, h1]
  · rintro h1 rfl
    simp [get_image, h1]
  · rintro d h1 rfl h2
    simp [get_image, h1, h2]
  · rintro d content h1 rfl h2 h3
    simp [get_image, h1, h2, h3]
  · intro a hsrc hfail
    exact processImgAttrib_unchanged env lp a src hsrc hfail
  · intro env2 meta title0 root res h
    exact treeRun_some_any_env env env2 lp meta title0 root res h

/-- Witness for C6: a concrete network error leaves a concrete document
unchanged and its conversion still succeeds. -/
theorem C6_resolver_no_raise_witness :
    get_image testEnvErr none "u" = ((none, none), [Warning.unableToGetErr "u"]) ∧
    (∃ ws fs, processImgAttrib testEnvErr none [("src", "u")] =
        some ([("src", "u")], ws, fs)) ∧
    (∃ res2, treeRun testEnvErr none (some []) "" testDoc = some res2) := by
  refine ⟨?_, ?_, ?_⟩
  · exact (C6_resolver_no_raise testEnvErr none "u").2.1 rfl
  · exact (C6_resolver_no_raise testEnvErr none "u").2.2.2.2.2.1 [("src", "u")]
      (by decide) (by decide)
  · exact (C6_resolver_no_raise testEnvPng none "u").2.2.2.2.2.2 testEnvErr
      (some []) "" testDoc
      ⟨testDoc.withChildren [Element.mk "p" [("class", " article_preamble")] "hello" "" []],
       "", "hello", [Warning.noTitle], []⟩ (by rfl)

/-- C3: image inlining is idempotent: a second run of the image pass
reproduces the tree of the first run unchanged; and an image whose `src` is
empty or already carries the `data:` prefix is left unchanged with no
warning logged and no fetch performed. -/
theorem C3_inline_idempotent :
    (∀ (env : Env) (lp : Option String) (root t : Element)
        (w : List Warning) (f : List String),
        inlineImages env lp root = some (t, w, f) →
        ∃ w' f', inlineImages env lp t = some (t, w', f')) ∧
    (∀ (env : Env) (lp : Option String) (a : Attrib) (src : String),
        attribGet? a "src" = some src →
        (src = "" ∨ pyStartsWith src "data:" = true) →
        processImgAttrib env lp a = some (a, [], [])) := by
  constructor
  · intro env lp root t w f h
    obtain ⟨children', w1, f1, hC, hx⟩ := inlineImages_some_elim env lp root (t, w, f) h
    obtain ⟨rfl, rfl, rfl⟩ : t = root.withChildren children' ∧ w = w1 ∧ f = f1 := by
      simpa using hx
    obtain ⟨w2, f2, hC2⟩ := inlineList_idem env lp root.children children' _ _ hC
    refine ⟨w2, f2, ?_⟩
    obtain ⟨tag, attrib, text, tail, children⟩ := root
    simp only [Element.withChildren]
    simp only [inlineImages]
    rw [hC2]
  · intro env lp a src h1 h2
    exact processImgAttrib_skip env lp a src h1 h2

/-- Witness for C3: a document whose only image is already inlined maps to
itself, twice. -/
theorem C3_inline_idempotent_witness :
    (∃ w' f', inlineImages testEnvErr none testDocData = some (testDocData, w', f')) ∧
    processImgAttrib testEnvErr none [("src", "data:x")]
      = some ([("src", "data:x")], [], []) := by
  constructor
  · exact C3_inline_idempotent.1 testEnvErr none testDocData testDocData [] [] (by rfl)
  · exact C3_inline_idempotent.2 testEnvErr none [("src", "data:x")] "data:x"
      (by decide) (Or.inr (by decide))

/-- Modelled from the spec's words: an inlined-data string is
`data:<mime>;base64,<payload>`; this extracts its MIME component. -/
def specMimeOfDataUrl (s : String) : String :=
  String.mk ((s.toList.drop 5).takeWhile (fun c => c ≠ ';'))

/-- Modelled from the spec's words: a well-formed MIME type names a type
and a subtype separated by a slash, so containing a slash is a necessary
condition of being a correct, well-formed MIME type. -/
def specWellFormedMime (s : String) : Bool := pyContainsChar s '/'

/-- C9 counterexample: a 200 response with content but no declared content
type makes the transform write the literal string `None` as the MIME
component, so the resulting `src` is neither the original value nor an
inlined-data string with a well-formed MIME type. -/
theorem C9_missing_content_type_counterexample :
    processImgAttrib testEnvNoCT none [("src", "x")]
      = some ([("src", "data:None;base64,AQ==")], [], ["x"]) ∧
    "data:None;base64,AQ==" ≠ "x" ∧
    specMimeOfDataUrl "data:None;base64,AQ==" = "None" ∧
    specWellFormedMime "None" = false := by
  refine ⟨by decide, by decide, by decide, by decide⟩

/-- C9 (amended): after the transform an image node's `src` is either
exactly its original value (already inlined, empty, or resolution failed or
returned empty content) or the inlined-data string
`data:<m>;base64,<base64 of the resolved bytes>`, where `m` is the
resolver's reported MIME value — the declared content type for URL fetches,
the extension-guessed type for local reads, and the literal `None` when a
200 response declares no content type. -/
theorem C9_src_invariant (env : Env) (lp : Option String) (a a' : Attrib)
    (ws : List Warning) (fs : List String) (src : String)
    (h : processImgAttrib env lp a = some (a', ws, fs))
    (hsrc : attribGet? a "src" = some src) :
    attribGet? a' "src" = some src ∨
    ∃ content mt, (get_image env lp src).1 = (some content, mt) ∧ content ≠ [] ∧
      attribGet? a' "src" =
        some ("data:" ++ pyFormat mt ++ ";base64," ++ b64encode content) := by
  simp only [processImgAttrib, hsrc] at h
  by_cases hskip : src = "" ∨ pyStartsWith src "data:" = true
  · rw [if_pos hskip] at h
    obtain ⟨rfl, -, -⟩ : a = a' ∧ [] = ws ∧ [] = fs := by simpa using h
    exact Or.inl hsrc
  · rw [if_neg hskip] at h
    rcases hg : get_image env lp src with ⟨⟨c, mt⟩, w⟩
    rw [hg] at h
    rcases c with - | content
    · obtain ⟨rfl, -, -⟩ : a = a' ∧ w = ws ∧ [src] = fs := by simpa using h
      exact Or.inl hsrc
    · by_cases hc : content = []
      · obtain ⟨rfl, -, -⟩ : a = a' ∧ w = ws ∧ [src] = fs := by simpa [hc] using h
        exact Or.inl hsrc
      · obtain ⟨ha, -, -⟩ :
            attribSet a "src" ("data:" ++ pyFormat mt ++ ";base64," ++ b64encode content) = a'
              ∧ w = ws ∧ [src] = fs := by simpa [hc] using h
        refine Or.inr ⟨content, mt, rfl, hc, ?_⟩
        rw [← ha]
        exact attribGet?_attribSet a "src" _

/-- Witness for C9 (amended): an already-inlined `src` stays unchanged. -/
theorem C9_src_invariant_witness :
    attribGet? [("src", "data:x")] "src" = some "data:x" ∨
    ∃ content mt, (get_image testEnvErr none "data:x").1 = (some content, mt) ∧ content ≠ [] ∧
      attribGet? [("src", "data:x")] "src" =
        some ("data:" ++ pyFormat mt ++ ";base64," ++ b64encode content) := by
  exact C9_src_invariant testEnvErr none [("src", "data:x")] [("src", "data:x")]
    [] [] "data:x" (by decide) (by decide)

/-- C2: when the parsed tree's first node is a level-1 heading, the final
title is that heading's text, overriding the pre-parse and metadata titles,
with a "two titles" warning when a prior (non-empty) title existed; a
level-1 heading that is not the first node never changes the title, and the
heading survives at its position with tag and text intact. -/
theorem C2_h1_title_precedence (env : Env) (lp : Option String) (meta : Option MetaMap)
    (title0 title1 : String) (root : Element) (res : TreeResult)
    (hrun : treeRun env lp meta title0 root = some res)
    (hmeta : metaTitleStep meta title0 = some title1) :
    (∀ h0 hs, root.children = h0 :: hs → h0.tag = "h1" →
      res.title = h0.text ∧
      (title1 ≠ "" → Warning.twoTitles h0.text ∈ res.warnings)) ∧
    (∀ h1e, root.children.find? (fun c => c.tag == "h1") = some h1e →
      root.children.head?.map Element.tag ≠ some "h1" →
      res.title = title1 ∧
      res.root.children.length = root.children.length ∧
      ∀ (i : Nat) (c : Element), root.children[i]? = some c →
        ∃ c', res.root.children[i]? = some c' ∧ c'.tag = c.tag ∧ c'.text = c.text) := by
  obtain ⟨title1', root2, w3, fs, hm', hI, hres⟩ :=
    treeRun_some_elim env lp meta title0 root res hrun
  rw [hmeta] at hm'
  obtain rfl : title1 = title1' := by simpa using hm'
  subst hres
  constructor
  · intro h0 hs hch htag
    obtain ⟨ht, hw⟩ := h1Step_first title1 root h0 hs hch htag
    refine ⟨by simpa using ht, ?_⟩
    intro hne
    simp [hw hne]
  · intro h1e hf hhead
    have hstep := h1Step_late title1 root h1e hf hhead
    obtain ⟨hlen1, hget1⟩ := preambleStep_children_shape meta root
    obtain ⟨hlen2, hget2⟩ :=
      inlineImages_children_shape env lp (preambleStep meta root).2.1 _ hI
    refine ⟨by simp [hstep], by simpa using hlen2.trans hlen1, ?_⟩
    intro i c hi
    obtain ⟨c1, hg1, ht1, hx1⟩ := hget1 i c hi
    obtain ⟨c2, hg2, ht2, hx2⟩ := hget2 i c1 hg1
    exact ⟨c2, by simpa using hg2, by rw [ht2, ht1], by rw [hx2, hx1]⟩

/-- The tree-processor result for `testDocH1` with prior title `"Old"`. -/
def testResH1 : TreeResult :=
  ⟨.mk "div" [] "" ""
      [.mk "h1" [] "Title" "" [],
       .mk "p" [("class", " article_preamble")] "body" "" []],
   "Title", "body", [Warning.twoTitles "Title"], []⟩

/-- Witness for C2: a concrete document with a leading `h1` and a prior
title gets the heading's text and the "two titles" warning. -/
theorem C2_h1_title_precedence_witness :
    testResH1.title = "Title" ∧ Warning.twoTitles "Title" ∈ testResH1.warnings := by
  have h := (C2_h1_title_precedence testEnvErr none (some []) "Old" "Old" testDocH1
      testResH1 (by rfl) (by rfl)).1
      (Element.mk "h1" [] "Title" "" []) [Element.mk "p" [] "body" "" []] rfl rfl
  exact ⟨h.1, h.2 (by decide)⟩

/-- C7: unless metadata carries `noarticle`, the description is the
flattened text of the first top-level paragraph and that node's class
attribute gains the preamble style class; with `noarticle` set or no
paragraph present the description is empty; the preamble stage logs no
warning in any case. -/
theorem C7_preamble_extraction (env : Env) (lp : Option String) (meta : Option MetaMap)
    (title0 : String) (root : Element) (res : TreeResult)
    (hrun : treeRun env lp meta title0 root = some res) :
    (metaHas meta "noarticle" = false →
      ∀ pre p post, root.children = pre ++ p :: post → p.tag = "p" →
        (∀ q ∈ pre, q.tag ≠ "p") →
        res.preamble = toText p ∧
        ∃ p', res.root.children[pre.length]? = some p' ∧ p'.tag = "p" ∧
          attribGet? p'.attrib "class"
            = some (attribGetD p.attrib "class" "" ++ " article_preamble")) ∧
    ((metaHas meta "noarticle" = true ∨
        root.children.find? (fun c => c.tag == "p") = none) →
      res.preamble = "") ∧
    (preambleStep meta root).2.2 = [] := by
  obtain ⟨title1, root2, w3, fs, hm, hI, hres⟩ :=
    treeRun_some_elim env lp meta title0 root res hrun
  subst hres
  refine ⟨?_, ?_, preambleStep_no_warnings meta root⟩
  · intro hmeta pre p post hsplit hp hpre
    obtain ⟨hdesc, hroot1⟩ := preambleStep_found meta root pre p post hsplit hp hpre hmeta
    refine ⟨by simpa using hdesc, ?_⟩
    have hgetmid : (preambleStep meta root).2.1.children[pre.length]?
        = some (addPreambleClass p) := by
      rw [hroot1, withChildren_children]
      exact getElem?_append_middle pre _ post
    obtain ⟨children', w, f, hC, hx⟩ :=
      inlineImages_some_elim env lp (preambleStep meta root).2.1 _ hI
    obtain ⟨rfl, -, -⟩ :
        root2 = (preambleStep meta root).2.1.withChildren children' ∧ w3 = w ∧ fs = f := by
      simpa using hx
    obtain ⟨c', w1, f1, hg, hn⟩ :=
      inlineList_get env lp _ children' _ _ hC pre.length (addPreambleClass p) hgetmid
    obtain ⟨htag, -, -, hattr⟩ := inlineNode_shape env lp _ c' w1 f1 hn
    obtain ⟨hpt, -, hpa⟩ := addPreambleClass_parts p
    refine ⟨c', ?_, ?_, ?_⟩
    · simpa [withChildren_children] using hg
    · rw [htag, hpt, hp]
    · rw [hattr (by rw [hpt, hp]; decide), hpa]
      exact attribGet?_attribSet p.attrib "class" _
  · intro hempty
    obtain ⟨hdesc, -⟩ := preambleStep_empty meta root hempty
    simpa using hdesc

/-- The tree-processor result for `testDoc` with no prior title. -/
def testResDoc : TreeResult :=
  ⟨.mk "div" [] "" "" [.mk "p" [("class", " article_preamble")] "hello" "" []],
   "", "hello", [Warning.noTitle], []⟩

/-- Witness for C7: the concrete one-paragraph document yields the
paragraph text as description and tags the paragraph. -/
theorem C7_preamble_extraction_witness :
    testResDoc.preamble = "hello" ∧
    ∃ p', testResDoc.root.children[0]? = some p' ∧ p'.tag = "p" ∧
      attribGet? p'.attrib "class" = some " article_preamble" := by
  have h := (C7_preamble_extraction testEnvErr none (some []) "" testDoc testResDoc
      (by rfl)).1 (by decide) [] (Element.mk "p" [] "hello" "" []) [] rfl rfl (by simp)
  obtain ⟨h1, p', hg, ht, ha⟩ := h
  exact ⟨h1, p', hg, ht, ha.trans (by decide)⟩

/-- C8: whenever `conv_markdown` completes, the returned metadata mapping
carries a `title` key whose value is a (possibly empty) string. -/
theorem C8_title_always_string (env : Env) (parse : List String → Element × MetaMap)
    (serialize : Element → String) (lp : Option String) (lines : List String)
    (html : String) (md : List (String × MetaVal))
    (h : conv_markdown env parse serialize lp lines = some (html, md)) :
    ∃ s : String, metaValGet? md "title" = some (MetaVal.str s) := by
  simp only [conv_markdown] at h
  cases hp : preProcessorRun lines with
  | none => rw [hp] at h; simp at h
  | some q =>
    obtain ⟨title0, lines'⟩ := q
    rw [hp] at h
    dsimp only at h
    cases ht : treeRun env lp (some (parse lines').2) title0 (parse lines').1 with
    | none => rw [ht] at h; simp at h
    | some res =>
      rw [ht] at h
      obtain ⟨-, hmd⟩ :
          serialize res.root = html ∧
          metaValSet (metaValSet ((parse lines').2.map (fun kv => (kv.1, MetaVal.list kv.2)))
              "description" (.str res.preamble)) "title" (.str res.title) = md := by
        simpa using h
      exact ⟨res.title, by rw [← hmd]; exact metaValGet?_metaValSet _ "title" _⟩

/-- A constant parse oracle returning the one-paragraph test document and
an empty metadata block. -/
def testParse : List String → Element × MetaMap := fun _ => (testDoc, [])

/-- A constant serializer. -/
def testSerialize : Element → String := fun _ => "html"

/-- Witness for C8: a concrete end-to-end conversion carries a string
`title` in its metadata. -/
theorem C8_title_always_string_witness :
    ∃ s, metaValGet?
        [("description", MetaVal.str "hello"), ("title", MetaVal.str "T")] "title"
      = some (MetaVal.str s) := by
  exact C8_title_always_string testEnvErr testParse testSerialize none
    ["T", "", "x"] "html"
    [("description", MetaVal.str "hello"), ("title", MetaVal.str "T")] (by rfl)
